import Mathlib

/-!
Shallow embedding of the semantic indexing and retrieval subsystem of
`docqa-ms` (backend/indexer_semantique), together with proofs settling the
specification claims about it.

Conventions of the embedding:
* Python strings are Lean `String`s; where character-level reasoning is
  needed (chunking, chunk-id parsing) we work on `List Char` via `.data`.
* Float vectors and similarity scores are embedded as integers (`ℤ`);
  none of the verified properties depends on fractional values, only on
  comparisons and on the truthiness of `0.0`.
* Python dicts are association lists with first-match lookup and
  replace-in-place-or-append insertion (insertion order preserved), which
  is exactly the observable behaviour of CPython dicts.
* Fallible code is embedded with `Except`/`Option`; since the Python code
  mutates state in place before an exception can propagate, fallible
  operations return the (possibly mutated) state together with the
  outcome.
-/

deriving instance DecidableEq for Except

/-- A JSON-like metadata value: the code only ever stores strings and
integer counts in the metadata maps. -/
inductive JVal where
  | str (s : String)
  | num (n : ℕ)
deriving DecidableEq

/-- A Python dict with string keys, in insertion order. -/
abbrev Meta := List (String × JVal)

/-- Python dict assignment `d[k] = v`: replace the value at an existing
key in place, otherwise append the new binding. -/
def dictInsert {α β : Type} [DecidableEq α] (l : List (α × β)) (k : α) (v : β) :
    List (α × β) :=
  match l with
  | [] => [(k, v)]
  | (k', v') :: rest => if k' = k then (k, v) :: rest else (k', v') :: dictInsert rest k v

/-- Python dict lookup `d.get(k)`: first binding with the given key. -/
def dictGet {α β : Type} [DecidableEq α] (l : List (α × β)) (k : α) : Option β :=
  match l with
  | [] => none
  | (k', v') :: rest => if k' = k then some v' else dictGet rest k

/-! ## Python string primitives

`str.strip()`, `re.sub(r'\s+', ' ', ...)` and friends, over `List Char`.
Python's `\s` on ASCII text is space, tab, newline, carriage return,
form feed and vertical tab. -/

/-- The characters Python's `str.strip()` and `\s` treat as whitespace. -/
def isPySpace (c : Char) : Bool :=
  c = ' ' || c = '\t' || c = '\n' || c = '\r' || c = '\x0b' || c = '\x0c'

/-- Python `str.strip()` on the character list of a string. -/
def pyStripList (l : List Char) : List Char :=
  ((l.dropWhile isPySpace).reverse.dropWhile isPySpace).reverse

/-- Python `str.strip()` on a string. -/
def pyStripStr (s : String) : String := ⟨pyStripList s.data⟩

/-- Worker for `collapseWs`; the flag records whether the previous
character belonged to a whitespace run already replaced by `' '`. -/
def collapseWsGo : Bool → List Char → List Char
  | _, [] => []
  | prevSpace, c :: rest =>
    if isPySpace c then
      if prevSpace then collapseWsGo true rest else ' ' :: collapseWsGo true rest
    else c :: collapseWsGo false rest

/-- `re.sub(r'\s+', ' ', text)`: every maximal whitespace run becomes one
space. -/
def collapseWs (l : List Char) : List Char := collapseWsGo false l

/-- `re.sub(r'\f|\v|\r\n|\r', '\n', text)` (left-to-right alternation, so
`\r\n` is consumed as a unit before a lone `\r`). -/
def subPageBreaks : List Char → List Char
  | [] => []
  | '\r' :: '\n' :: rest => '\n' :: subPageBreaks rest
  | c :: rest =>
    if c = '\x0c' ∨ c = '\x0b' ∨ c = '\r' then '\n' :: subPageBreaks rest
    else c :: subPageBreaks rest

/-- Worker for `subNewlines`. -/
def subNewlinesGo : Bool → List Char → List Char
  | _, [] => []
  | prevNl, c :: rest =>
    if c = '\n' then
      if prevNl then subNewlinesGo true rest else ' ' :: subNewlinesGo true rest
    else c :: subNewlinesGo false rest

/-- `re.sub(r'\n+', ' ', text)`: every maximal newline run becomes one
space. -/
def subNewlines (l : List Char) : List Char := subNewlinesGo false l

/-- `TextChunker._clean_text`: strip, collapse whitespace runs, then the
two page-break substitutions (which are no-ops after the collapse but are
kept for fidelity to the source). -/
def clean_text (l : List Char) : List Char :=
  subNewlines (subPageBreaks (collapseWs (pyStripList l)))

/-- Worker for `pyWordCount`; the flag records whether we are inside a
word run. -/
def wordCountGo : Bool → List Char → ℕ
  | _, [] => 0
  | inWord, c :: rest =>
    if isPySpace c then wordCountGo false rest
    else (if inWord then 0 else 1) + wordCountGo true rest

/-- `len(s.split())`: the number of maximal non-whitespace runs. -/
def pyWordCount (l : List Char) : ℕ := wordCountGo false l

/-- `" ".join(parts)` on character lists. -/
def joinSp : List (List Char) → List Char
  | [] => []
  | [s] => s
  | s :: rest => s ++ ' ' :: joinSp rest

/-! ## Chunker (`app/core/chunker.py`) -/

/-- The chunking configuration read from `settings`
(`CHUNK_SIZE`, `CHUNK_OVERLAP`, `MIN_CHUNK_LENGTH`). -/
structure ChunkCfg where
  chunkSize : ℕ
  chunkOverlap : ℕ
  minChunkLength : ℕ
deriving DecidableEq

/-- The default settings: `CHUNK_SIZE = 512`, `CHUNK_OVERLAP = 50`,
`MIN_CHUNK_LENGTH = 50` (`app/core/config.py`). -/
def cfgDefault : ChunkCfg := ⟨512, 50, 50⟩

/-- One chunk dictionary as produced by `TextChunker._create_chunk`. -/
structure Chunk where
  index : ℕ
  content : List Char
  sentences : List (List Char)
  metadata : Meta
deriving DecidableEq

/-- `TextChunker._create_chunk`: computed counts, then `update`d with the
caller-supplied metadata (which may overwrite the computed keys). -/
def create_chunk (content : List Char) (index : ℕ) (sentences : List (List Char))
    (md : Meta) : Chunk :=
  let base : Meta :=
    [("chunk_index", .num index),
     ("sentence_count", .num sentences.length),
     ("character_count", .num content.length),
     ("word_count", .num (pyWordCount content))]
  ⟨index, content, sentences, md.foldl (fun acc p => dictInsert acc p.1 p.2) base⟩

/-- Worker for `TextChunker._get_overlap_sentences`: walk the sentences
backwards, accumulating while the running text stays within the overlap
budget; `otext` is `overlap_text`, `acc` is `overlap_sentences`. -/
def overlapGo (cfg : ChunkCfg) : List (List Char) → List Char → List (List Char) →
    List (List Char)
  | [], _, acc => acc
  | s :: rest, otext, acc =>
    if otext.length + s.length ≤ cfg.chunkOverlap then
      overlapGo cfg rest (s ++ ' ' :: otext) (s :: acc)
    else acc

/-- `TextChunker._get_overlap_sentences`. -/
def get_overlap_sentences (cfg : ChunkCfg) (sentences : List (List Char)) :
    List (List Char) :=
  overlapGo cfg sentences.reverse [] []

/-- The mutable state of the `chunk_text` sentence loop. -/
structure ChunkLoopState where
  chunks : List Chunk
  current : List Char
  sentences : List (List Char)
  idx : ℕ

/-- The `for sentence in sentences` loop of `TextChunker.chunk_text`. -/
def chunk_loop (cfg : ChunkCfg) (md : Meta) :
    List (List Char) → ChunkLoopState → ChunkLoopState
  | [], st => st
  | s :: rest, st =>
    let potential := if st.current ≠ [] then st.current ++ ' ' :: s else s
    if cfg.chunkSize < potential.length ∧ st.current ≠ [] then
      let keep := cfg.minChunkLength ≤ (pyStripList st.current).length
      let chunks' :=
        if keep then
          st.chunks ++ [create_chunk (pyStripList st.current) st.idx st.sentences md]
        else st.chunks
      let idx' := if keep then st.idx + 1 else st.idx
      let overlap := get_overlap_sentences cfg st.sentences
      chunk_loop cfg md rest
        ⟨chunks', joinSp overlap ++ ' ' :: s, overlap ++ [s], idx'⟩
    else
      chunk_loop cfg md rest
        { st with current := potential, sentences := st.sentences ++ [s] }

/-- `TextChunker.chunk_text`, parameterised by the sentence tokenizer
(`nltk.sent_tokenize` is an external library and enters the model as a
function argument). -/
def chunk_text (cfg : ChunkCfg) (sentTokenize : List Char → List (List Char))
    (text : List Char) (md : Meta) : List Chunk :=
  if text = [] ∨ (pyStripList text).length < cfg.minChunkLength then []
  else
    let cleaned := clean_text text
    let sentences := sentTokenize cleaned
    let st := chunk_loop cfg md sentences ⟨[], [], [], 0⟩
    if st.current ≠ [] ∧ cfg.minChunkLength ≤ (pyStripList st.current).length then
      st.chunks ++ [create_chunk (pyStripList st.current) st.idx st.sentences md]
    else st.chunks

/-- The behaviour of `nltk.sent_tokenize` on text without any
sentence-final punctuation: the whole text is a single sentence. Used to
instantiate the tokenizer parameter at concrete inputs. -/
def tokSingle : List Char → List (List Char) := fun s => [s]

/-! ## Vector store (`app/core/vector_store.py`)

The FAISS `IndexFlatIP` is embedded as the list of stored vectors; slot
`i` holds the `i`-th vector and `ntotal` is the list length. The two
Python dicts `metadata : chunk_id -> metadata` and
`id_mapping : faiss_id -> chunk_id` are association lists (the source
stores `str(faiss_id)` keys; `Nat.repr` is injective on `ℕ`, so the keys
are embedded as `ℕ` directly). -/

structure VSState where
  vectors : List (List ℤ)
  metadata : List (String × Meta)
  id_mapping : List (ℕ × String)
  dimension : ℕ
deriving DecidableEq

/-- A freshly created store (`faiss.IndexFlatIP(dimension)` with empty
maps). -/
def emptyVS (d : ℕ) : VSState := ⟨[], [], [], d⟩

/-- The exceptions `add_vectors` can raise: a FAISS dimension error from
`self.index.add`, or the `IndexError` from `faiss_ids[i]` when the zip of
`chunk_ids`/`metadata_list` is longer than the vector batch. -/
inductive AddErr where
  | dimMismatch
  | indexError
deriving DecidableEq

/-- The `for i, (chunk_id, metadata) in enumerate(zip(...))` loop of
`add_vectors`: each step first indexes `faiss_ids[i]` (raising
`IndexError` past the end) and then writes both maps. The state mutated
so far is kept when the loop raises, exactly as in Python. -/
def add_loop : VSState → List (String × Meta) → List ℕ → VSState × Option AddErr
  | st, [], _ => (st, none)
  | st, _ :: _, [] => (st, some .indexError)
  | st, (cid, md) :: pairs, fid :: fids =>
    add_loop
      { st with metadata := dictInsert st.metadata cid md,
                id_mapping := dictInsert st.id_mapping fid cid }
      pairs fids

/-- `VectorStore.add_vectors`. The FAISS `index.add` call is a single
external call: it either appends the whole batch or raises before any
mutation (dimension mismatch). The assigned ids are
`range(ntotal - n, ntotal)`. -/
def add_vectors (st : VSState) (vectors : List (List ℤ)) (chunk_ids : List String)
    (metadata_list : List Meta) : VSState × Except AddErr (List ℕ) :=
  if vectors = [] then (st, .ok [])
  else if ∀ v ∈ vectors, v.length = st.dimension then
    let start_id := st.vectors.length
    let st1 := { st with vectors := st.vectors ++ vectors }
    let faiss_ids := List.range' start_id vectors.length
    let res := add_loop st1 (chunk_ids.zip metadata_list) faiss_ids
    (res.1, match res.2 with
      | none => .ok faiss_ids
      | some e => .error e)
  else (st, .error .dimMismatch)

/-- Inner product of two embedded vectors (FAISS `IndexFlatIP` scoring;
`zip` truncates to the common length like the underlying BLAS call over
the declared dimension). -/
def dot (a b : List ℤ) : ℤ := (a.zip b).foldl (fun acc p => acc + p.1 * p.2) 0

/-- Stable descending insertion: an earlier candidate stays ahead of any
later candidate with the same score. -/
def insertDesc (x : ℤ × ℕ) : List (ℤ × ℕ) → List (ℤ × ℕ)
  | [] => [x]
  | y :: ys => if y.1 ≤ x.1 then x :: y :: ys else y :: insertDesc x ys

/-- Stable descending sort by score. -/
def sortScoresDesc : List (ℤ × ℕ) → List (ℤ × ℕ)
  | [] => []
  | x :: xs => insertDesc x (sortScoresDesc xs)

/-- `self.index.search(q, k)` on a flat inner-product index: score every
stored vector, order by descending score (ties by ascending slot id), and
return the first `k` `(score, slot_id)` pairs. With `k ≤ ntotal` no `-1`
padding entries occur. -/
def faiss_search (vectors : List (List ℤ)) (q : List ℤ) (k : ℕ) : List (ℤ × ℕ) :=
  (sortScoresDesc ((vectors.map (dot q)).enum.map (fun p => (p.2, p.1)))).take k

/-- The Python skip test `if threshold and score < threshold`: `None` and
`0.0` are falsy, so a zero threshold never filters. -/
def thresholdSkip (threshold : Option ℤ) (score : ℤ) : Bool :=
  match threshold with
  | none => false
  | some t => if t = 0 then false else decide (score < t)

/-- `VectorStore.search`: empty index short-circuits; each returned pair
is filtered by the threshold test, resolved through `id_mapping` (a
missing or falsy chunk id is skipped with a warning), and joined with its
metadata (defaulting to `{}`). -/
def vs_search (st : VSState) (query : List ℤ) (k : ℕ) (threshold : Option ℤ) :
    List (String × ℤ × Meta) :=
  if st.vectors.length = 0 then []
  else
    (faiss_search st.vectors query (min k st.vectors.length)).filterMap
      (fun p =>
        if thresholdSkip threshold p.1 then none
        else
          match dictGet st.id_mapping p.2 with
          | none => none
          | some cid =>
            if cid = "" then none
            else some (cid, p.1, (dictGet st.metadata cid).getD []))

/-- `VectorStore.delete_vectors`: metadata-and-mapping removal only; the
vectors themselves stay in the index (soft delete). The count returned is
`len(chunk_ids)` whether or not the ids were present. The `remaining_*`
lists built by the source are dead code and are omitted. -/
def delete_vectors (st : VSState) (chunk_ids : List String) : VSState × ℕ :=
  if chunk_ids = [] then (st, 0)
  else
    ({ st with
        metadata := st.metadata.filter (fun p => !(chunk_ids.contains p.1)),
        id_mapping := st.id_mapping.filter (fun p => !(chunk_ids.contains p.2)) },
     chunk_ids.length)

/-! ## Reconciler (`app/core/sync.py`) -/

/-- One row of the
`document_embeddings JOIN documents WHERE processing_status = 'indexed'`
query, in `(document_id, chunk_index)` order. The embedded `db` list
stands for exactly the eligible rows, so both the `COUNT(*)` and the row
fetch read the same list. -/
structure DbRow where
  document_id : String
  chunk_index : ℕ
  embedding : List ℤ
  chunk_text : String
  filename : String
  file_type : String
  doc_metadata : Meta
deriving DecidableEq

/-- The chunk id `f"{document_id}_chunk_{chunk_index}"` built per row. -/
def row_chunk_id (r : DbRow) : String :=
  r.document_id ++ "_chunk_" ++ toString r.chunk_index

/-- The per-row metadata dict: fixed keys first, then document metadata
merged in only for keys not already present. -/
def row_metadata (r : DbRow) : Meta :=
  let base : Meta :=
    [("document_id", .str r.document_id),
     ("chunk_index", .num r.chunk_index),
     ("content", .str r.chunk_text),
     ("filename", .str r.filename),
     ("file_type", .str r.file_type)]
  r.doc_metadata.foldl
    (fun acc p => if (dictGet acc p.1).isSome then acc else acc ++ [(p.1, p.2)]) base

inductive SyncStatus where
  | in_sync
  | no_embeddings
  | synced
deriving DecidableEq

/-- The dictionary returned by `sync_index_with_database` (the wall-clock
`processing_time_ms` field is not modelled). -/
structure SyncResult where
  status : SyncStatus
  db_embeddings : ℕ
  faiss_vectors : ℕ
  sync_performed : Bool
deriving DecidableEq

inductive SyncErr where
  | rebuild_failed
deriving DecidableEq

/-- The in-place clearing performed by the rebuild path
(`vector_store.index = faiss.IndexFlatIP(...)`; both maps emptied). -/
def cleared (st : VSState) : VSState := { st with vectors := [], metadata := [], id_mapping := [] }

/-- `sync_index_with_database`. The rebuild path clears the live store
first and then repopulates it through `add_vectors`; a failure of either
`np.vstack` (ragged embeddings) or of the FAISS add (wrong dimension)
propagates with the cleared state left in place — both failure points
leave the identical `cleared st`, which is how they are merged here.
`save_index` is disk I/O and is not modelled. -/
def sync_index_with_database (st : VSState) (db : List DbRow) (force : Bool) :
    VSState × Except SyncErr SyncResult :=
  let db_count := db.length
  let faiss_count := st.vectors.length
  let needs_sync := force = true ∨ db_count ≠ faiss_count ∨ (faiss_count = 0 ∧ 0 < db_count)
  if ¬ needs_sync then (st, .ok ⟨.in_sync, db_count, faiss_count, false⟩)
  else if db = [] then (st, .ok ⟨.no_embeddings, 0, 0, false⟩)
  else
    let res := add_vectors (cleared st) (db.map (·.embedding)) (db.map row_chunk_id)
      (db.map row_metadata)
    (res.1, match res.2 with
      | .ok _ => .ok ⟨.synced, db_count, (db.map (·.embedding)).length, true⟩
      | .error _ => .error .rebuild_failed)

/-! ## Ingestion consumer (`app/consumer/document_consumer.py`) -/

/-- The columns of a `documents` row the consumer touches. -/
structure DocRecord where
  filename : String
  content : Option String
  processing_status : String
deriving DecidableEq

/-- One `document_embeddings` row; rows are keyed by
`(document_id, chunk_index)` with upsert semantics
(`ON CONFLICT ... DO UPDATE SET embedding, chunk_text`). -/
structure EmbRow where
  embedding : List ℤ
  chunk_text : String
deriving DecidableEq

/-- The durable state the consumer reads and writes: the `documents`
table, the `document_embeddings` table, and the shared vector store. -/
structure ConsumerState where
  docs : List (String × DocRecord)
  document_embeddings : List ((String × ℕ) × EmbRow)
  vs : VSState
deriving DecidableEq

/-- `UPDATE documents SET processing_status = s WHERE id = docId`. -/
def mark_status (cs : ConsumerState) (docId status : String) : ConsumerState :=
  { cs with
      docs := cs.docs.map
        (fun p => if p.1 = docId then (p.1, { p.2 with processing_status := status }) else p) }

/-- Python `s[:n]`. -/
def pyTruncate (n : ℕ) (s : String) : String := ⟨s.data.take n⟩

/-- `DocumentConsumer.process_document`, parameterised by the embedding
model (`embedding_service.generate_single_embedding`), which enters the
model as a function. The consumer embeds the full document text as one
chunk: no chunker call, one upserted embeddings row with `chunk_index 0`,
one `add_vectors` call whose failure is swallowed (the FAISS write is
"for performance" only), then the document is marked `indexed`. The
`failed` marking is reachable only through exceptions of unmodelled
external calls (database/model unavailability) and so does not appear
here. -/
def process_document (embed : String → List ℤ) (cs : ConsumerState)
    (document_id : String) : ConsumerState :=
  match dictGet cs.docs document_id with
  | none => cs
  | some doc =>
    match doc.content with
    | none => mark_status cs document_id "indexed"
    | some text =>
      -- `if not text_content or len(text_content.strip()) < 10`; the empty
      -- string strips to length 0, so the two falsy tests merge.
      if (pyStripStr text).length < 10 then mark_status cs document_id "indexed"
      else
        let emb := embed text
        let cs1 := { cs with
          document_embeddings :=
            dictInsert cs.document_embeddings (document_id, 0)
              ⟨emb, pyTruncate 1000 text⟩ }
        let chunk_id := document_id ++ "_chunk_0"
        let md : Meta :=
          [("document_id", .str document_id),
           ("content", .str (pyTruncate 1000 text)),
           ("filename", .str doc.filename)]
        let cs2 := { cs1 with vs := (add_vectors cs1.vs [emb] [chunk_id] [md]).1 }
        mark_status cs2 document_id "indexed"

/-! ## Chunk-id parsing (`search.py` line 90)

`chunk_id.rsplit('_chunk_', 1)[0] if '_chunk_' in chunk_id else chunk_id`:
the prefix before the rightmost occurrence of `"_chunk_"`. -/

/-- The separator `"_chunk_"` as a character list. -/
def chunkSep : List Char := ['_', 'c', 'h', 'u', 'n', 'k', '_']

/-- `startsWithList pat l` holds when `pat` is an initial segment of `l`. -/
def startsWithList : List Char → List Char → Bool
  | [], _ => true
  | _ :: _, [] => false
  | p :: ps, c :: cs => p = c && startsWithList ps cs

/-- Scan positions `n, n-1, ..., 0` for the first (i.e. rightmost)
position where `pat` occurs in `s`. -/
def lastOccFrom (pat s : List Char) : ℕ → Option ℕ
  | 0 => if startsWithList pat s then some 0 else none
  | n + 1 =>
    if startsWithList pat (s.drop (n + 1)) then some (n + 1) else lastOccFrom pat s n

/-- The position of the rightmost occurrence of `pat` in `s`, if any. -/
def lastOccurrence (pat s : List Char) : Option ℕ := lastOccFrom pat s s.length

/-- The `document_id` derivation of `semantic_search`: everything before
the rightmost `"_chunk_"`, or the whole id when the separator is absent. -/
def parse_document_id (cid : String) : String :=
  match lastOccurrence chunkSep cid.data with
  | some p => ⟨cid.data.take p⟩
  | none => cid

/-! ## Search endpoint (`app/api/v1/endpoints/search.py`) -/

/-- The `SearchFilter` model. `date_from`/`date_to` also exist on the
request but the handler never reads them, so they are omitted. -/
structure SearchFilters where
  document_type : Option String
  patient_id : Option String
  document_id : Option String
deriving DecidableEq

/-- One entry of the response `results` list. The `round(float(score), 4)`
call is the identity on the integer scores of this embedding. -/
structure SearchResultOut where
  chunk_id : String
  document_id : String
  score : ℤ
  content : String
  metadata : Meta
deriving DecidableEq

/-- `if request.filters.X and metadata.get(...) != request.filters.X`:
the filter applies only when truthy (set and non-empty) and the candidate
is dropped when the compared value differs. -/
def filterMismatch (filt : Option String) (actual : Option JVal) : Bool :=
  match filt with
  | none => false
  | some f => !(f = "") && !(actual = some (.str f))

/-- Same truthiness test for the document-id filter, compared against the
derived document id rather than metadata. -/
def docIdMismatch (filt : Option String) (docId : String) : Bool :=
  match filt with
  | none => false
  | some f => !(f = "") && !(docId = f)

/-- `metadata.get('content', '')` with the string coercion of the stored
value. -/
def contentOf (md : Meta) : String :=
  match dictGet md "content" with
  | some (.str s) => s
  | _ => ""

/-- The result-assembly loop of `semantic_search`: deduplicate on
`chunk_id` via the `seen_chunks` set, derive `document_id`, apply the
three truthy filters, and append. -/
def assemble_loop (filters : SearchFilters) :
    List (String × ℤ × Meta) → List String → List SearchResultOut →
    List SearchResultOut
  | [], _, acc => acc
  | (cid, score, md) :: rest, seen, acc =>
    if cid ∈ seen then assemble_loop filters rest seen acc
    else
      let docId := parse_document_id cid
      if filterMismatch filters.document_type (dictGet md "document_type")
          || filterMismatch filters.patient_id (dictGet md "patient_id")
          || docIdMismatch filters.document_id docId then
        assemble_loop filters rest seen acc
      else
        assemble_loop filters rest (cid :: seen)
          (acc ++ [⟨cid, docId, score, contentOf md, md⟩])

/-- The validated search request (`query` non-empty, `1 ≤ limit ≤ 100`,
`0 ≤ threshold ≤ 1` are pydantic constraints; none is needed for the
properties proved below). -/
structure SearchRequestIn where
  query : String
  filters : SearchFilters
  limit : ℕ
  threshold : ℤ
deriving DecidableEq

/-- `semantic_search`: embed the query (the embedding model enters as a
function), query the vector store with `k = limit` and the request
threshold, then assemble/deduplicate/filter. -/
def semantic_search (st : VSState) (embed : String → List ℤ)
    (req : SearchRequestIn) : List SearchResultOut :=
  assemble_loop req.filters
    (vs_search st (embed req.query) req.limit (some req.threshold)) [] []

/-! ## Helper lemmas about the association-list dicts and `add_vectors` -/

theorem dictGet_mem {α β : Type} [DecidableEq α] (l : List (α × β)) (k : α) (v : β)
    (h : dictGet l k = some v) : (k, v) ∈ l := by
  induction l with
  | nil => simp [dictGet] at h
  | cons p rest ih =>
    obtain ⟨k', v'⟩ := p
    simp only [dictGet] at h
    by_cases hk : k' = k
    · rw [if_pos hk] at h
      cases h
      simp [hk]
    · rw [if_neg hk] at h
      exact List.mem_cons_of_mem _ (ih h)

theorem dictInsert_of_fresh {α β : Type} [DecidableEq α] (l : List (α × β)) (k : α)
    (v : β) (h : ∀ p ∈ l, p.1 ≠ k) : dictInsert l k v = l ++ [(k, v)] := by
  induction l with
  | nil => rfl
  | cons p rest ih =>
    obtain ⟨k', v'⟩ := p
    have hk : k' ≠ k := h (k', v') (List.mem_cons_self _ _)
    simp only [dictInsert, if_neg hk, List.cons_append, List.cons.injEq, true_and]
    exact ih (fun q hq => h q (List.mem_cons_of_mem _ hq))

theorem add_loop_snd_none (pairs : List (String × Meta)) :
    ∀ (fids : List ℕ) (st : VSState), pairs.length ≤ fids.length →
      (add_loop st pairs fids).2 = none := by
  induction pairs with
  | nil => intro fids st _; rfl
  | cons p pairs ih =>
    intro fids st h
    obtain ⟨cid, md⟩ := p
    cases fids with
    | nil => simp at h
    | cons f fids =>
      simp only [List.length_cons, Nat.add_le_add_iff_right] at h
      exact ih fids _ h

theorem add_loop_fst_vectors (pairs : List (String × Meta)) :
    ∀ (fids : List ℕ) (st : VSState),
      (add_loop st pairs fids).1.vectors = st.vectors ∧
      (add_loop st pairs fids).1.dimension = st.dimension := by
  induction pairs with
  | nil => intro fids st; exact ⟨rfl, rfl⟩
  | cons p pairs ih =>
    intro fids st
    obtain ⟨cid, md⟩ := p
    cases fids with
    | nil => exact ⟨rfl, rfl⟩
    | cons f fids => exact ih fids _

theorem add_vectors_error_fst (st : VSState) (v : List (List ℤ)) (c : List String)
    (m : List Meta) (hlen : (c.zip m).length ≤ v.length) :
    ∀ e, (add_vectors st v c m).2 = .error e →
      (add_vectors st v c m).1 = st ∧ e = .dimMismatch := by
  intro e herr
  unfold add_vectors at herr ⊢
  by_cases hv : v = []
  · rw [if_pos hv] at herr; cases herr
  · rw [if_neg hv] at herr ⊢
    by_cases hd : ∀ x ∈ v, x.length = st.dimension
    · rw [if_pos hd] at herr
      have hnone := add_loop_snd_none (c.zip m)
        (List.range' st.vectors.length v.length)
        { st with vectors := st.vectors ++ v }
        (by simpa using hlen)
      simp only [hnone] at herr
      cases herr
    · rw [if_neg hd] at herr ⊢
      cases herr
      exact ⟨rfl, rfl⟩

theorem add_vectors_ok_vectors (st : VSState) (v : List (List ℤ)) (c : List String)
    (m : List Meta) (ids : List ℕ) (hok : (add_vectors st v c m).2 = .ok ids) :
    (add_vectors st v c m).1.vectors = st.vectors ++ v := by
  unfold add_vectors at hok ⊢
  by_cases hv : v = []
  · rw [if_pos hv] at hok ⊢
    simp [hv]
  · rw [if_neg hv] at hok ⊢
    by_cases hd : ∀ x ∈ v, x.length = st.dimension
    · rw [if_pos hd]
      exact (add_loop_fst_vectors _ _ _).1
    · rw [if_neg hd] at hok
      cases hok

/-! ## Shared concrete states used to instantiate the claims -/

/-- A store holding one vector for chunk `"a"` (dimension 1). -/
def vsOneVec : VSState := ⟨[[3]], [("a", [])], [(0, "a")], 1⟩

/-- A store holding one vector for chunk `"c"` (dimension 1). -/
def vsSingleChunk : VSState := ⟨[[1]], [("c", [])], [(0, "c")], 1⟩

/-- A store whose single vector has a negative inner product with the
query `[1]`. -/
def vsNegVec : VSState := ⟨[[-1]], [("c", [])], [(0, "c")], 1⟩

/-- A store holding chunks `"a"` and `"b"`. -/
def vsTwoChunks : VSState :=
  ⟨[[1], [2]], [("a", []), ("b", [])], [(0, "a"), (1, "b")], 1⟩

/-- A well-formed embeddings row of dimension 1. -/
def dbRowGood : DbRow := ⟨"d", 0, [1], "x", "f", "t", []⟩

/-- An embeddings row whose stored embedding has the wrong dimension
(length 2 in a dimension-1 store): `np.vstack`/`index.add` raises on it
mid-rebuild. -/
def dbRowBad : DbRow := ⟨"d", 1, [1, 2], "y", "f", "t", []⟩

/-! ## Claim C2 — rebuild atomicity -/

/-- Claim C2, counterexample: starting from a store with one vector and a
database of two rows whose second embedding has the wrong dimension, the
rebuild raises mid-way and the active index is left cleared — not as it
was before the rebuild began. -/
theorem C2_counterexample :
    sync_index_with_database vsOneVec [dbRowGood, dbRowBad] false =
      (cleared vsOneVec, .error .rebuild_failed) ∧
    cleared vsOneVec ≠ vsOneVec := by
  decide

/-- Claim C2 as amended: the rebuild mutates the active index in place,
so a failure mid-rebuild leaves the active index cleared (empty vectors
and empty maps), not in its pre-rebuild state; only a successful rebuild
repopulates it. -/
theorem C2_amended (st : VSState) (db : List DbRow) (force : Bool) (e : SyncErr)
    (herr : (sync_index_with_database st db force).2 = .error e) :
    (sync_index_with_database st db force).1 = cleared st := by
  simp only [sync_index_with_database] at herr ⊢
  split_ifs at herr ⊢ with h1 h2
  cases hres : (add_vectors (cleared st) (db.map (·.embedding))
      (db.map row_chunk_id) (db.map row_metadata)).2 with
  | ok ids => simp [hres] at herr
  | error e' =>
    have hlen : ((db.map row_chunk_id).zip (db.map row_metadata)).length ≤
        (db.map (·.embedding)).length := by
      simp [List.length_zip]
    exact (add_vectors_error_fst _ _ _ _ hlen e' hres).1

/-- Witness for C2_amended at the concrete failing rebuild. -/
theorem C2_amended_witness :
    (sync_index_with_database vsOneVec [dbRowGood, dbRowBad] false).1 =
      cleared vsOneVec :=
  C2_amended vsOneVec [dbRowGood, dbRowBad] false .rebuild_failed (by decide)

/-! ## Claim C3 — atomicity of `add_vectors` -/

/-- Claim C3, counterexample: a call with one vector but two chunk ids
raises `IndexError` from `faiss_ids[1]` after the vector and the first
pair of map entries have already been written; the state is not the
pre-call state, refuting the claim for arbitrary (precondition-violating)
calls. -/
theorem C3_counterexample :
    (add_vectors (emptyVS 1) [[5]] ["a", "b"] [[], []]).2 = .error .indexError ∧
    (add_vectors (emptyVS 1) [[5]] ["a", "b"] [[], []]).1 =
      ⟨[[5]], [("a", [])], [(0, "a")], 1⟩ ∧
    (⟨[[5]], [("a", [])], [(0, "a")], 1⟩ : VSState) ≠ emptyVS 1 := by
  decide

/-- Claim C3 as amended: under the documented precondition
`len(vectors) == len(chunk_ids) == len(metadata_list)` a raising call to
`add_vectors` leaves the vector store, the metadata map and the id
mapping all unchanged — the only reachable failure point is then the
FAISS add itself, which raises before any mutation. -/
theorem C3_amended (st : VSState) (v : List (List ℤ)) (c : List String)
    (m : List Meta) (e : AddErr) (hvc : v.length = c.length)
    (hcm : c.length = m.length)
    (herr : (add_vectors st v c m).2 = .error e) :
    (add_vectors st v c m).1 = st :=
  (add_vectors_error_fst st v c m (by rw [List.length_zip]; omega) e herr).1

/-- Witness for C3_amended: a dimension-mismatch call with matching list
lengths leaves the empty store untouched. -/
theorem C3_amended_witness :
    (add_vectors (emptyVS 1) [[1, 2]] ["a"] [[]]).1 = emptyVS 1 :=
  C3_amended (emptyVS 1) [[1, 2]] ["a"] [[]] .dimMismatch (by decide) (by decide)
    (by decide)

/-! ## Claim C7 — reconciliation idempotence -/

/-- Claim C7, counterexample: with an empty chunk store and a non-empty
index, the second (and every) `reconcile(force=false)` call reports
`no_embeddings`, not `in_sync`, and the counts differ. -/
theorem C7_counterexample :
    sync_index_with_database vsSingleChunk [] false =
      (vsSingleChunk, .ok ⟨.no_embeddings, 0, 0, false⟩) ∧
    sync_index_with_database
        (sync_index_with_database vsSingleChunk [] false).1 [] false =
      ((sync_index_with_database vsSingleChunk [] false).1,
        .ok ⟨.no_embeddings, 0, 0, false⟩) ∧
    SyncStatus.no_embeddings ≠ SyncStatus.in_sync := by
  decide

/-- Claim C7 as amended: after any successful `reconcile` call, a second
call with `force=false` and no intervening writes performs no rebuild and
leaves the state untouched; it reports `in_sync` except in the degenerate
state where the chunk store holds no eligible embeddings while the index
is non-empty, where it reports `no_embeddings`. -/
theorem C7_amended (st : VSState) (db : List DbRow) (force : Bool)
    (st1 : VSState) (r1 : SyncResult)
    (h : sync_index_with_database st db force = (st1, .ok r1)) :
    ∃ r2, sync_index_with_database st1 db false = (st1, .ok r2) ∧
      r2.sync_performed = false ∧
      (r2.status = .in_sync ∨ r2.status = .no_embeddings) := by
  simp only [sync_index_with_database] at h ⊢
  by_cases h1 : (force = true ∨ db.length ≠ st.vectors.length ∨
      (st.vectors.length = 0 ∧ 0 < db.length))
  · rw [if_neg (not_not_intro h1)] at h
    by_cases h2 : db = []
    · -- first call found no eligible rows: state unchanged, db empty
      rw [if_pos h2] at h
      simp only [Prod.mk.injEq] at h
      obtain ⟨hst, _⟩ := h
      subst hst
      subst h2
      by_cases hz : st.vectors.length = 0
      · refine ⟨⟨.in_sync, 0, st.vectors.length, false⟩, ?_, rfl, Or.inl rfl⟩
        rw [if_pos]
        · rfl
        · push_neg
          exact ⟨by simp, by simp [hz], by simp⟩
      · refine ⟨⟨.no_embeddings, 0, 0, false⟩, ?_, rfl, Or.inr rfl⟩
        rw [if_neg (not_not_intro (Or.inr (Or.inl (by simpa using Ne.symm hz)))),
          if_pos rfl]
    · -- first call rebuilt: afterwards the index holds exactly the db rows
      rw [if_neg h2] at h
      cases hres : (add_vectors (cleared st) (db.map (·.embedding))
          (db.map row_chunk_id) (db.map row_metadata)).2 with
      | error e' => simp [hres] at h
      | ok ids =>
        simp only [hres, Prod.mk.injEq] at h
        obtain ⟨hst, _⟩ := h
        have hvec := add_vectors_ok_vectors (cleared st) (db.map (·.embedding))
          (db.map row_chunk_id) (db.map row_metadata) ids hres
        have hlen : st1.vectors.length = db.length := by
          rw [← hst, hvec]
          simp [cleared]
        refine ⟨⟨.in_sync, db.length, st1.vectors.length, false⟩, ?_, rfl, Or.inl rfl⟩
        rw [if_pos]
        push_neg
        exact ⟨by simp, by omega, fun hzz => by omega⟩
  · -- first call took the in_sync branch: state unchanged, counts equal
    rw [if_pos h1] at h
    simp only [Prod.mk.injEq] at h
    obtain ⟨hst, _⟩ := h
    subst hst
    push_neg at h1
    refine ⟨⟨.in_sync, db.length, st.vectors.length, false⟩, ?_, rfl, Or.inl rfl⟩
    rw [if_pos]
    push_neg
    exact ⟨by simp, h1.2.1, h1.2.2⟩

/-- Witness for C7_amended: the empty store and empty db are in sync, and
stay so on the second call. -/
theorem C7_amended_witness :
    ∃ r2, sync_index_with_database (emptyVS 1) [] false = (emptyVS 1, .ok r2) ∧
      r2.sync_performed = false ∧
      (r2.status = .in_sync ∨ r2.status = .no_embeddings) :=
  C7_amended (emptyVS 1) [] false (emptyVS 1) ⟨.in_sync, 0, 0, false⟩ (by decide)

/-! ## Claims C5 and C6 — search visibility and threshold -/

theorem vs_search_mem_mapping (st : VSState) (q : List ℤ) (k : ℕ) (th : Option ℤ)
    (r : String × ℤ × Meta) (hr : r ∈ vs_search st q k th) :
    ∃ idx, (idx, r.1) ∈ st.id_mapping := by
  unfold vs_search at hr
  split_ifs at hr with h0
  · simp at hr
  · rw [List.mem_filterMap] at hr
    obtain ⟨p, _, hp⟩ := hr
    by_cases ht : thresholdSkip th p.1 = true
    · rw [if_pos ht] at hp; cases hp
    · rw [if_neg ht] at hp
      cases hget : dictGet st.id_mapping p.2 with
      | none => simp only [hget] at hp; cases hp
      | some cid =>
        simp only [hget] at hp
        by_cases hc : cid = ""
        · rw [if_pos hc] at hp; cases hp
        · rw [if_neg hc] at hp
          cases hp
          exact ⟨p.2, dictGet_mem _ _ _ hget⟩

/-- Claim C5: after `delete_vectors(chunk_ids)` the stale vectors stay
physically present in the index, yet a subsequent search (with no
intervening add or rebuild) never returns a deleted chunk id — the
mapping no longer resolves to it. -/
theorem C5_soft_delete (st : VSState) (cids : List String) (q : List ℤ) (k : ℕ)
    (th : Option ℤ) :
    (delete_vectors st cids).1.vectors = st.vectors ∧
    ∀ r ∈ vs_search (delete_vectors st cids).1 q k th, r.1 ∉ cids := by
  constructor
  · unfold delete_vectors
    split_ifs <;> rfl
  · intro r hr hmem
    obtain ⟨idx, hidx⟩ := vs_search_mem_mapping _ q k th r hr
    unfold delete_vectors at hidx
    split_ifs at hidx with hnil
    · subst hnil; simp at hmem
    · rw [List.mem_filter] at hidx
      have hcontains := hidx.2
      simp only [Bool.not_eq_true'] at hcontains
      exact absurd hmem (by simpa using hcontains)

/-- Witness for C5_soft_delete: deleting chunk `"a"` and searching leaves
only chunk `"b"`, which indeed is not among the deleted ids. -/
theorem C5_soft_delete_witness : ("b", (2:ℤ), ([]:Meta)).1 ∉ ["a"] :=
  (C5_soft_delete vsTwoChunks ["a"] [1] 2 none).2 ("b", 2, []) (by decide)

/-- Claim C6, counterexample: with the documented default threshold
`0.0` supplied, `search` still returns an entry whose score `-1` is below
the threshold — `if threshold` is falsy at `0.0`, so no filtering
happens. -/
theorem C6_counterexample :
    vs_search vsNegVec [1] 5 (some 0) = [("c", -1, [])] ∧ ¬((0:ℤ) ≤ -1) := by
  decide

/-- Claim C6 as amended: when the supplied threshold is nonzero (truthy),
every returned entry has score at least the threshold; a supplied
threshold of `0.0` (or `None`) disables the filter entirely. -/
theorem C6_amended (st : VSState) (q : List ℤ) (k : ℕ) (t : ℤ) (ht : t ≠ 0)
    (r : String × ℤ × Meta) (hr : r ∈ vs_search st q k (some t)) :
    t ≤ r.2.1 := by
  unfold vs_search at hr
  split_ifs at hr with h0
  · simp at hr
  · rw [List.mem_filterMap] at hr
    obtain ⟨p, _, hp⟩ := hr
    by_cases hts : thresholdSkip (some t) p.1 = true
    · rw [if_pos hts] at hp; cases hp
    · rw [if_neg hts] at hp
      have hscore : t ≤ p.1 := by
        simp only [thresholdSkip, if_neg ht] at hts
        exact le_of_not_lt (by simpa using hts)
      cases hget : dictGet st.id_mapping p.2 with
      | none => simp only [hget] at hp; cases hp
      | some cid =>
        simp only [hget] at hp
        by_cases hc : cid = ""
        · rw [if_pos hc] at hp; cases hp
        · rw [if_neg hc] at hp
          cases hp
          exact hscore

/-- Witness for C6_amended: with threshold 1, the returned entry for
chunk `"c"` has score 2 ≥ 1. -/
theorem C6_amended_witness : (1:ℤ) ≤ ("c", (2:ℤ), ([]:Meta)).2.1 :=
  C6_amended vsSingleChunk [2] 1 1 (by decide) ("c", 2, []) (by decide)

/-! ## Claim C9 — search result deduplication -/

theorem assemble_loop_nodup (filters : SearchFilters)
    (srs : List (String × ℤ × Meta)) :
    ∀ (seen : List String) (acc : List SearchResultOut),
      (acc.map (·.chunk_id)).Nodup → (∀ r ∈ acc, r.chunk_id ∈ seen) →
      ((assemble_loop filters srs seen acc).map (·.chunk_id)).Nodup := by
  induction srs with
  | nil => intro seen acc h1 _; exact h1
  | cons p rest ih =>
    intro seen acc h1 h2
    obtain ⟨cid, score, md⟩ := p
    simp only [assemble_loop]
    by_cases hseen : cid ∈ seen
    · rw [if_pos hseen]; exact ih seen acc h1 h2
    · rw [if_neg hseen]
      by_cases hf : (filterMismatch filters.document_type (dictGet md "document_type")
          || filterMismatch filters.patient_id (dictGet md "patient_id")
          || docIdMismatch filters.document_id (parse_document_id cid)) = true
      · rw [if_pos hf]; exact ih seen acc h1 h2
      · rw [if_neg hf]
        apply ih
        · rw [List.map_append]
          rw [List.nodup_append]
          refine ⟨h1, by simp, ?_⟩
          intro x hx hx'
          simp only [List.map_cons, List.map_nil, List.mem_singleton] at hx'
          subst hx'
          obtain ⟨rr, hrr, hrc⟩ := List.mem_map.mp hx
          exact hseen (hrc ▸ h2 rr hrr)
        · intro rr hrm
          rcases List.mem_append.mp hrm with hcase | hcase
          · exact List.mem_cons_of_mem _ (h2 rr hcase)
          · simp only [List.mem_singleton] at hcase
            subst hcase
            exact List.mem_cons_self _ _

/-- Claim C9: a `semantic_search` result list never contains two entries
with the same `chunk_id` — the `seen_chunks` set silently skips any
candidate whose chunk id was already emitted, for every index state and
request. -/
theorem C9_dedup (st : VSState) (embed : String → List ℤ)
    (req : SearchRequestIn) :
    ((semantic_search st embed req).map (·.chunk_id)).Nodup :=
  assemble_loop_nodup _ _ [] [] (by simp) (by simp)

/-! ## Claim C8 — minimum chunk length and the sole-chunk edge case -/

theorem chunk_loop_content_min (cfg : ChunkCfg) (md : Meta)
    (sentences : List (List Char)) :
    ∀ st, (∀ c ∈ st.chunks, cfg.minChunkLength ≤ c.content.length) →
      ∀ c ∈ (chunk_loop cfg md sentences st).chunks,
        cfg.minChunkLength ≤ c.content.length := by
  induction sentences with
  | nil => intro st h; exact h
  | cons s rest ih =>
    intro st h
    simp only [chunk_loop]
    split_ifs <;>
      (apply ih
       intro c hc
       first
       | exact h c hc
       | (refine (List.mem_append.mp hc).elim (fun hcc => h c hcc) (fun hcc => ?_)
          simp only [List.mem_singleton] at hcc
          subst hcc
          simp only [create_chunk]
          assumption))

/-- The text of the C8 counterexample: its stripped length is 60 (over
the minimum 50), but whitespace collapsing shrinks it to 11 characters. -/
def textPadded : List Char := "abcde".data ++ List.replicate 50 ' ' ++ "fghij".data

/-- A 60-character text with no whitespace at all. -/
def textSolid : List Char := List.replicate 60 'a'

/-- Claim C8, counterexample: `textPadded` passes the initial length
check (stripped length 60 ≥ 50) yet `chunk_text` yields zero chunks —
the sole produced chunk (11 characters after normalization) is discarded
because it is below the minimum, with no sole-chunk exception. -/
theorem C8_counterexample :
    cfgDefault.minChunkLength ≤ (pyStripList textPadded).length ∧
    chunk_text cfgDefault tokSingle textPadded [] = [] := by
  decide

/-- Claim C8 as amended: a produced chunk shorter than the configured
minimum length is always discarded, even when it is the only chunk of
non-trivial input; consequently every returned chunk has content length
at least the minimum, and an input passing the initial length check can
yield zero chunks. -/
theorem C8_amended (cfg : ChunkCfg) (tok : List Char → List (List Char))
    (text : List Char) (md : Meta) (c : Chunk)
    (hc : c ∈ chunk_text cfg tok text md) :
    cfg.minChunkLength ≤ c.content.length := by
  simp only [chunk_text] at hc
  split_ifs at hc with h1 h2
  · simp at hc
  · rcases List.mem_append.mp hc with hcc | hcc
    · exact chunk_loop_content_min cfg md _ _ (by simp) c hcc
    · simp only [List.mem_singleton] at hcc
      subst hcc
      simpa [create_chunk] using h2.2
  · exact chunk_loop_content_min cfg md _ _ (by simp) c hc

/-- Witness for C8_amended: the sole chunk produced from `textSolid`
meets the minimum length. -/
theorem C8_amended_witness :
    cfgDefault.minChunkLength ≤
      (create_chunk textSolid 0 [textSolid] []).content.length :=
  C8_amended cfgDefault tokSingle textSolid [] _ (by decide)

/-! ## Claim C1 — the ingestion consumer pipeline -/

theorem add_vectors_single (st : VSState) (v : List ℤ) (cid : String) (md : Meta)
    (hdim : v.length = st.dimension) :
    add_vectors st [v] [cid] [md] =
      ({ st with vectors := st.vectors ++ [v],
                 metadata := dictInsert st.metadata cid md,
                 id_mapping := dictInsert st.id_mapping st.vectors.length cid },
       .ok [st.vectors.length]) := by
  unfold add_vectors
  rw [if_neg (by simp), if_pos (by simpa using hdim)]
  simp [add_loop, List.range']

theorem dictGet_map_mark (docs : List (String × DocRecord))
    (docId status : String) (d : DocRecord)
    (h : dictGet docs docId = some d) :
    dictGet (docs.map (fun p =>
        if p.1 = docId then (p.1, { p.2 with processing_status := status }) else p))
      docId = some { d with processing_status := status } := by
  induction docs with
  | nil => simp [dictGet] at h
  | cons p rest ih =>
    obtain ⟨k, v⟩ := p
    simp only [dictGet] at h
    by_cases hk : k = docId
    · subst hk
      rw [if_pos rfl] at h
      cases h
      simp only [List.map_cons]
      rw [if_true]
      simp only [dictGet]
      rw [if_true]
    · rw [if_neg hk] at h
      simp only [List.map_cons]
      rw [if_neg hk]
      simp only [dictGet]
      rw [if_neg hk]
      exact ih h

/-- Claim C1 as amended: for a document whose text passes the minimum
length check, `process_document` does not invoke the chunker at all — it
embeds the full text once, upserts exactly one embeddings row keyed
`(document_id, 0)`, appends exactly one vector to the index (under chunk
id `document_id ++ "_chunk_0"`), and marks the document `indexed`;
the stored-chunk and added-vector counts are one, independent of how many
chunks `chunk_text` would produce for the text. -/
theorem C1_amended (embed : String → List ℤ) (cs : ConsumerState)
    (document_id : String) (d : DocRecord) (t : String)
    (hdoc : dictGet cs.docs document_id = some d)
    (hcontent : d.content = some t)
    (hlen : 10 ≤ (pyStripStr t).length)
    (hdim : (embed t).length = cs.vs.dimension) :
    (process_document embed cs document_id).vs.vectors =
      cs.vs.vectors ++ [embed t] ∧
    (process_document embed cs document_id).document_embeddings =
      dictInsert cs.document_embeddings (document_id, 0)
        ⟨embed t, pyTruncate 1000 t⟩ ∧
    dictGet (process_document embed cs document_id).docs document_id =
      some { d with processing_status := "indexed" } := by
  have hne : ¬ (pyStripStr t).length < 10 := by omega
  simp only [process_document, hdoc, hcontent, if_neg hne]
  refine ⟨?_, ?_, ?_⟩
  · simp only [mark_status]
    rw [add_vectors_single _ _ _ _ hdim]
  · rfl
  · simp only [mark_status]
    have hres := dictGet_map_mark cs.docs document_id "indexed" d hdoc
    rw [hcontent] at hres
    exact hres

/-- The counterexample document text as a string. -/
def docText : String := ⟨textPadded⟩

/-- A consumer state holding one `processing` document whose text is
`docText` (stripped length 60 ≥ 10). -/
def csExample : ConsumerState :=
  ⟨[("d", ⟨"f.txt", some docText, "processing"⟩)], [], emptyVS 3⟩

/-- A dimension-3 stand-in for `generate_single_embedding`. -/
def embedConst : String → List ℤ := fun _ => [1, 0, 0]

/-- Claim C1, counterexample: for a document whose text passes the
minimum length check, the chunker would produce 0 chunks, yet the
consumer stores one embeddings row and adds one vector (1 ≠ 0): the
numbers of stored chunks and added vectors do not equal the chunker's
chunk count because the consumer never chunks. -/
theorem C1_counterexample :
    10 ≤ (pyStripStr docText).length ∧
    (chunk_text cfgDefault tokSingle docText.data []).length = 0 ∧
    (process_document embedConst csExample "d").vs.vectors.length =
      csExample.vs.vectors.length + 1 ∧
    (process_document embedConst csExample "d").document_embeddings.length = 1 ∧
    (1 : ℕ) ≠ 0 := by
  decide

/-- Witness for C1_amended at the concrete example state. -/
theorem C1_amended_witness :
    (process_document embedConst csExample "d").vs.vectors =
      csExample.vs.vectors ++ [embedConst docText] ∧
    (process_document embedConst csExample "d").document_embeddings =
      dictInsert csExample.document_embeddings ("d", 0)
        ⟨embedConst docText, pyTruncate 1000 docText⟩ ∧
    dictGet (process_document embedConst csExample "d").docs "d" =
      some ⟨"f.txt", some docText, "indexed"⟩ :=
  C1_amended embedConst csExample "d" ⟨"f.txt", some docText, "processing"⟩ docText
    (by decide) (by decide) (by decide) (by decide)

/-! ## Claim C4 — injectivity of the slot-to-chunk mapping -/

/-- The C4 invariant: no two ANN slots resolve to the same chunk id. -/
def slotInjective (st : VSState) : Prop :=
  ∀ p ∈ st.id_mapping, ∀ q ∈ st.id_mapping, p.2 = q.2 → p.1 = q.1

instance (st : VSState) : Decidable (slotInjective st) := by
  unfold slotInjective
  infer_instance

theorem map_fst_zip_nodup (c : List String) (m : List Meta) (h : c.Nodup) :
    ((c.zip m).map Prod.fst).Nodup := by
  induction c generalizing m with
  | nil => simp
  | cons x c' ih =>
    cases m with
    | nil => simp
    | cons y m' =>
      simp only [List.zip_cons_cons, List.map_cons, List.nodup_cons]
      refine ⟨?_, ih m' (List.nodup_cons.mp h).2⟩
      intro hmem
      obtain ⟨pr, hpr, hfst⟩ := List.mem_map.mp hmem
      exact (List.nodup_cons.mp h).1 (hfst ▸ (List.of_mem_zip hpr).1)

theorem add_loop_invariant (pairs : List (String × Meta)) :
    ∀ (fids : List ℕ) (st : VSState),
      (∀ p ∈ st.id_mapping, p.1 < st.vectors.length) →
      slotInjective st →
      (∀ f ∈ fids, f < st.vectors.length) →
      (∀ f ∈ fids, ∀ p ∈ st.id_mapping, p.1 ≠ f) →
      fids.Nodup →
      (pairs.map Prod.fst).Nodup →
      (∀ pr ∈ pairs, ∀ p ∈ st.id_mapping, p.2 ≠ pr.1) →
      (∀ p ∈ (add_loop st pairs fids).1.id_mapping,
        p.1 < (add_loop st pairs fids).1.vectors.length) ∧
      slotInjective (add_loop st pairs fids).1 := by
  induction pairs with
  | nil => intro fids st hb hi _ _ _ _ _; exact ⟨hb, hi⟩
  | cons pr rest ih =>
    intro fids st hb hi hfb hff hfn hcn hcf
    obtain ⟨cid, md⟩ := pr
    cases fids with
    | nil => exact ⟨hb, hi⟩
    | cons f fids =>
      have hkey : ∀ p ∈ st.id_mapping, p.1 ≠ f :=
        hff f (List.mem_cons_self _ _)
      have hval : ∀ p ∈ st.id_mapping, p.2 ≠ cid :=
        hcf (cid, md) (List.mem_cons_self _ _)
      have hmap : dictInsert st.id_mapping f cid = st.id_mapping ++ [(f, cid)] :=
        dictInsert_of_fresh _ _ _ hkey
      simp only [add_loop]
      apply ih
      · -- key bounds in the extended mapping
        intro p hp
        simp only [hmap, List.mem_append, List.mem_singleton] at hp
        rcases hp with hp | hp
        · exact hb p hp
        · subst hp
          exact hfb f (List.mem_cons_self _ _)
      · -- injectivity of the extended mapping
        intro p hp q hq hpq
        simp only [hmap, List.mem_append, List.mem_singleton] at hp hq
        rcases hp with hp | hp <;> rcases hq with hq | hq
        · exact hi p hp q hq hpq
        · subst hq
          exact absurd hpq (hval p hp)
        · subst hp
          exact absurd hpq.symm (hval q hq)
        · subst hp; subst hq; rfl
      · intro f' hf'
        exact hfb f' (List.mem_cons_of_mem _ hf')
      · -- remaining slot ids are fresh for the extended mapping
        intro f' hf' p hp
        simp only [hmap, List.mem_append, List.mem_singleton] at hp
        rcases hp with hp | hp
        · exact hff f' (List.mem_cons_of_mem _ hf') p hp
        · subst hp
          intro hcontra
          apply (List.nodup_cons.mp hfn).1
          have hcc : f = f' := hcontra
          rw [hcc]
          exact hf'
      · exact (List.nodup_cons.mp hfn).2
      · exact (List.nodup_cons.mp hcn).2
      · -- remaining chunk ids are fresh for the extended mapping
        intro pr' hpr' p hp
        simp only [hmap, List.mem_append, List.mem_singleton] at hp
        rcases hp with hp | hp
        · exact hcf pr' (List.mem_cons_of_mem _ hpr') p hp
        · subst hp
          intro hcontra
          apply (List.nodup_cons.mp hcn).1
          have hcc : cid = pr'.1 := hcontra
          rw [hcc]
          exact List.mem_map.mpr ⟨pr', hpr', rfl⟩

theorem add_vectors_invariant (st : VSState) (v : List (List ℤ)) (c : List String)
    (m : List Meta)
    (hb : ∀ p ∈ st.id_mapping, p.1 < st.vectors.length)
    (hi : slotInjective st)
    (hcn : c.Nodup)
    (hcf : ∀ cid ∈ c, ∀ p ∈ st.id_mapping, p.2 ≠ cid) :
    (∀ p ∈ (add_vectors st v c m).1.id_mapping,
      p.1 < (add_vectors st v c m).1.vectors.length) ∧
    slotInjective (add_vectors st v c m).1 := by
  unfold add_vectors
  split_ifs with h1 h2
  · exact ⟨hb, hi⟩
  · apply add_loop_invariant
    · intro p hp
      simp only [List.length_append]
      exact lt_of_lt_of_le (hb p hp) (Nat.le_add_right _ _)
    · exact hi
    · intro f hf
      have := List.mem_range'_1.mp hf
      simpa [List.length_append] using this.2
    · intro f hf p hp
      have := List.mem_range'_1.mp hf
      exact Nat.ne_of_lt (lt_of_lt_of_le (hb p hp) this.1)
    · exact List.nodup_range' _ _
    · exact map_fst_zip_nodup c m hcn
    · intro pr hpr p hp
      exact hcf pr.1 (List.of_mem_zip hpr).1 p hp
  · exact ⟨hb, hi⟩

/-- The index states reachable from a fresh store by the mutating
operations, when no `add` re-inserts a chunk id still present in the
mapping and every batch's chunk ids are pairwise distinct (and likewise
for the chunk ids derived from the store rows during a rebuild). -/
inductive ReachableFresh : VSState → Prop
  | empty (d : ℕ) : ReachableFresh (emptyVS d)
  | add (st : VSState) (v : List (List ℤ)) (c : List String) (m : List Meta) :
      ReachableFresh st → c.Nodup →
      (∀ cid ∈ c, ∀ p ∈ st.id_mapping, p.2 ≠ cid) →
      ReachableFresh (add_vectors st v c m).1
  | del (st : VSState) (cids : List String) :
      ReachableFresh st → ReachableFresh (delete_vectors st cids).1
  | rebuild (st : VSState) (db : List DbRow) (force : Bool) :
      ReachableFresh st → (db.map row_chunk_id).Nodup →
      ReachableFresh (sync_index_with_database st db force).1

theorem reachable_invariant (st : VSState) (h : ReachableFresh st) :
    (∀ p ∈ st.id_mapping, p.1 < st.vectors.length) ∧ slotInjective st := by
  induction h with
  | empty d =>
    exact ⟨by intro p hp; simp [emptyVS] at hp,
           by intro p hp; simp [emptyVS] at hp⟩
  | add st v c m hr hcn hcf ih =>
    exact add_vectors_invariant st v c m ih.1 ih.2 hcn hcf
  | del st cids hr ih =>
    constructor
    · intro p hp
      unfold delete_vectors at hp ⊢
      split_ifs at hp ⊢
      · exact ih.1 p hp
      · exact ih.1 p (List.mem_of_mem_filter hp)
    · intro p hp q hq hpq
      unfold delete_vectors at hp hq
      split_ifs at hp hq
      · exact ih.2 p hp q hq hpq
      · exact ih.2 p (List.mem_of_mem_filter hp) q (List.mem_of_mem_filter hq) hpq
  | rebuild st db force hr hnodup ih =>
    have hcl : ∀ p ∈ (cleared st).id_mapping, False := by
      intro p hp
      simp [cleared] at hp
    have hrebuild := add_vectors_invariant (cleared st) (db.map (·.embedding))
      (db.map row_chunk_id) (db.map row_metadata)
      (fun p hp => absurd hp (fun hpp => hcl p hpp))
      (fun p hp => absurd hp (fun hpp => hcl p hpp))
      hnodup
      (fun cid _ p hp => absurd hp (fun hpp => hcl p hpp))
    simp only [sync_index_with_database]
    split_ifs
    all_goals first
      | exact ih
      | exact hrebuild

/-- Claim C4, counterexample: re-indexing the same chunk id a second time
leaves two live slots (0 and 1) both mapping to chunk `"c"` — the
slot-to-chunk mapping is not injective in general. -/
theorem C4_counterexample :
    ((add_vectors (add_vectors (emptyVS 1) [[1]] ["c"] [[]]).1
        [[2]] ["c"] [[]]).1).id_mapping = [(0, "c"), (1, "c")] ∧
    ¬ slotInjective (add_vectors (add_vectors (emptyVS 1) [[1]] ["c"] [[]]).1
        [[2]] ["c"] [[]]).1 := by
  decide

/-- Claim C4 as amended: the slot-to-chunk mapping is injective in every
state reachable by add, delete and rebuild, provided each add inserts
only chunk ids that are pairwise distinct and not currently present in
the mapping (re-adding a live chunk id — e.g. re-indexing the same
document and chunk index — breaks the invariant, as the counterexample
shows). -/
theorem C4_amended (st : VSState) (h : ReachableFresh st) : slotInjective st :=
  (reachable_invariant st h).2

/-- Witness for C4_amended at a concrete one-add reachable state. -/
theorem C4_amended_witness :
    slotInjective (add_vectors (emptyVS 1) [[1]] ["a"] [[]]).1 :=
  C4_amended _ (ReachableFresh.add (emptyVS 1) [[1]] ["a"] [[]]
    (ReachableFresh.empty 1) (by decide) (by decide))

/-! ## Claim C10 — chunk-id round trip -/

theorem startsWithList_append (pat r : List Char) :
    startsWithList pat (pat ++ r) = true := by
  induction pat with
  | nil => rfl
  | cons c ps ih => simp [startsWithList, ih]

theorem startsWithList_head_ne (c x : Char) (ps xs : List Char) (h : c ≠ x) :
    startsWithList (c :: ps) (x :: xs) = false := by
  simp [startsWithList, h]

theorem startsWithList_all_digits (c : Char) (ps l : List Char)
    (hc : c.isDigit = false) (hl : ∀ x ∈ l, x.isDigit = true) :
    startsWithList (c :: ps) l = false := by
  cases l with
  | nil => rfl
  | cons x xs =>
    by_cases hcx : c = x
    · subst hcx
      rw [hl c (List.mem_cons_self _ _)] at hc
      cases hc
    · exact startsWithList_head_ne c x ps xs hcx

theorem no_occurrence_in_suffix (ds : List Char)
    (hds : ∀ x ∈ ds, x.isDigit = true) (q : ℕ) (hq : 1 ≤ q) :
    startsWithList chunkSep ((chunkSep ++ ds).drop q) = false := by
  by_cases h7 : 7 ≤ q
  · rw [List.drop_append_eq_append_drop,
      List.drop_eq_nil_of_le (show chunkSep.length ≤ q by simp [chunkSep]; omega),
      List.nil_append]
    exact startsWithList_all_digits '_' _ _ (by decide)
      (fun x hx => hds x (List.mem_of_mem_drop hx))
  · interval_cases q
    · simp only [chunkSep, List.cons_append, List.drop]
      exact startsWithList_head_ne '_' 'c' _ _ (by decide)
    · simp only [chunkSep, List.cons_append, List.drop]
      exact startsWithList_head_ne '_' 'h' _ _ (by decide)
    · simp only [chunkSep, List.cons_append, List.drop]
      exact startsWithList_head_ne '_' 'u' _ _ (by decide)
    · simp only [chunkSep, List.cons_append, List.drop]
      exact startsWithList_head_ne '_' 'n' _ _ (by decide)
    · simp only [chunkSep, List.cons_append, List.drop]
      exact startsWithList_head_ne '_' 'k' _ _ (by decide)
    · simp only [chunkSep, List.cons_append, List.drop, startsWithList,
        List.append_eq, List.nil_append]
      rw [startsWithList_all_digits 'c' ['h', 'u', 'n', 'k', '_'] ds (by decide) hds]
      simp

theorem lastOccFrom_eq (pat s : List Char) (m : ℕ)
    (hm : startsWithList pat (s.drop m) = true)
    (habove : ∀ p, m < p → startsWithList pat (s.drop p) = false) :
    ∀ N, m ≤ N → lastOccFrom pat s N = some m := by
  intro N
  induction N with
  | zero =>
    intro h0
    have hm0 : m = 0 := Nat.le_zero.mp h0
    subst hm0
    rw [List.drop_zero] at hm
    simp only [lastOccFrom]
    rw [if_pos hm]
  | succ n ihn =>
    intro hle
    by_cases hm1 : m = n + 1
    · subst hm1
      simp only [lastOccFrom]
      rw [if_pos hm]
    · have hmn : m ≤ n := by omega
      simp only [lastOccFrom]
      rw [if_neg (by simp [habove (n + 1) (by omega)])]
      exact ihn hmn

theorem lastOccurrence_append_digits (doc ds : List Char)
    (hds : ∀ x ∈ ds, x.isDigit = true) :
    lastOccurrence chunkSep (doc ++ chunkSep ++ ds) = some doc.length := by
  unfold lastOccurrence
  rw [List.append_assoc]
  apply lastOccFrom_eq
  · rw [List.drop_left]
    exact startsWithList_append _ _
  · intro p hp
    rw [List.drop_append_eq_append_drop,
      List.drop_eq_nil_of_le (le_of_lt hp), List.nil_append]
    exact no_occurrence_in_suffix ds hds (p - doc.length) (by omega)
  · simp

theorem digitChar_isDigit (n : ℕ) (h : n < 10) :
    (Nat.digitChar n).isDigit = true := by
  interval_cases n <;> decide

theorem toDigitsCore_digits :
    ∀ (fuel n : ℕ) (acc : List Char), (∀ c ∈ acc, c.isDigit = true) →
      ∀ c ∈ Nat.toDigitsCore 10 fuel n acc, c.isDigit = true := by
  intro fuel
  induction fuel with
  | zero =>
    intro n acc hacc c hc
    simp only [Nat.toDigitsCore] at hc
    exact hacc c hc
  | succ f ih =>
    intro n acc hacc c hc
    simp only [Nat.toDigitsCore] at hc
    by_cases hz : n / 10 = 0
    · rw [if_pos hz] at hc
      rcases List.mem_cons.mp hc with hcc | hcc
      · subst hcc
        exact digitChar_isDigit _ (Nat.mod_lt _ (by norm_num))
      · exact hacc c hcc
    · rw [if_neg hz] at hc
      refine ih (n / 10) _ ?_ c hc
      intro c' hc'
      rcases List.mem_cons.mp hc' with hcc | hcc
      · subst hcc
        exact digitChar_isDigit _ (Nat.mod_lt _ (by norm_num))
      · exact hacc c' hcc

theorem natDigits_isDigit (i : ℕ) : ∀ c ∈ (toString i).data, c.isDigit = true :=
  toDigitsCore_digits (i + 1) i [] (by simp)

/-- Claim C10: parsing the constructed chunk id
`document_id ++ "_chunk_" ++ str(i)` with a rightmost split on
`"_chunk_"` recovers exactly the original document id, for every document
id (including ones containing `"_chunk_"` themselves) and every natural
chunk index — the derived document id of a search result equals the one
the chunk was indexed under. -/
theorem C10_roundtrip (document_id : String) (i : ℕ) :
    parse_document_id (document_id ++ "_chunk_" ++ toString i) = document_id := by
  unfold parse_document_id
  have hdata : (document_id ++ "_chunk_" ++ toString i).data =
      document_id.data ++ chunkSep ++ (toString i).data := by
    rw [String.data_append, String.data_append]
    rfl
  rw [hdata, lastOccurrence_append_digits document_id.data (toString i).data
    (natDigits_isDigit i)]
  dsimp only
  rw [List.append_assoc, List.take_left]
